import Mathlib

/-!
Verification of the field-descriptor and execution-lifecycle core of
`theflow` (file `src/theflow/base.py`), as a shallow embedding in Lean.

Python dictionaries are modelled as insertion-ordered association lists
(`List (String × _)` with `alGet`/`alSet`), Python exceptions as an explicit
`PyErr` error type threaded through `Except`, and object identity tokens
(`id(...)`) as integers supplied by an environment function.
-/

set_option autoImplicit false

namespace TheFlow

/-- Runtime values flowing through the engine (the fragment the proofs need). -/
inductive PyVal where
  | none
  | int (n : Int)
  | str (s : String)
  | bool (b : Bool)
  | comp (ref : Nat)
  deriving DecidableEq

/-- Declared runtime types, for the `isinstance` check of `Param.__set__`. -/
inductive PyTy where
  | intTy
  | strTy
  | boolTy
  | compTy
  deriving DecidableEq

/-- Python `isinstance(value, ty)` on the modelled fragment. -/
def instanceOf : PyVal → PyTy → Bool
  | .int _, .intTy => true
  | .str _, .strTy => true
  | .bool _, .boolTy => true
  | .comp _, .compTy => true
  | _, _ => false

/-- `isinstance(value, Composable)`, used by `Node.__set__`. -/
def PyVal.isComposable : PyVal → Bool
  | .comp _ => true
  | _ => false

/-- Python exceptions raised by the embedded code. -/
inductive PyErr where
  | valueError (msg : String)
  | keyError (key : String)
  | attributeError (name : String)
  | invalidParamDefinition (msg : String)
  | protectedKeywordError (name declaredBy : String)
  | recursionError
  | typeError (msg : String)
  deriving DecidableEq

deriving instance DecidableEq for Except

/-- Whether an `Except` result is an error (an escaped Python exception). -/
def isError {α : Type} : Except PyErr α → Bool
  | .error _ => true
  | .ok _ => false

/-- Python `name.startswith("_")`: the first character is an underscore. -/
def startsWithUnderscore (s : String) : Bool :=
  match s.data with
  | [] => false
  | c :: _ => c = '_'

/-- Lookup in an insertion-ordered dictionary (`d[k]` / `k in d`). -/
def alGet {α : Type} (k : String) : List (String × α) → Option α
  | [] => Option.none
  | (k₁, v) :: rest => if k₁ = k then some v else alGet k rest

/-- Store into an insertion-ordered dictionary (`d[k] = v`). -/
def alSet {α : Type} (k : String) (v : α) : List (String × α) → List (String × α)
  | [] => [(k, v)]
  | (k₁, v₁) :: rest => if k₁ = k then (k, v) :: rest else (k₁, v₁) :: alSet k v rest

/-! ## Dependency-triggered recomputation (`Param._calculate_from_depends_on`)

The per-parameter slice of a `Composable` instance that the read of one
dependency-bearing `Param` touches: `obj.__ff_params__` and the inner map
`obj.__ff_depends__[self._name]` of recorded identity tokens.

The identity token `id(getattr(obj, target))` of each dependency is supplied
by an environment `depId : String → Int`, held fixed for this one read.
The computation function `default_callback` is modelled by the value it
returns (`cb : Option PyVal`); the embedding additionally reports the list of
dependencies that were scanned (compared) and how many times the callback was
invoked, so that the theorems can speak about them.
-/

structure DepState where
  ffParams : List (String × PyVal)
  recorded : List (String × Int)
  deriving DecidableEq

/-- Error message of the missing-callback branch of
`Param._calculate_from_depends_on` (line 159 of base.py). -/
def paramDependsCbMsg (name : String) (deps : List String) : String :=
  "Param " ++ name ++ " depends on " ++ String.intercalate ", " deps ++
    " is a computed param and require default_callback"

/-- The token-refresh loop at the end of `Param._calculate_from_depends_on`
(lines 165-171): for every declared dependency, record the already-computed
token if it was scanned (`target_ in ids`), else `id(getattr(obj, target_))`. -/
def recordIds (depId : String → Int) (ids : List (String × Int)) :
    List String → List (String × Int) → List (String × Int)
  | [], recorded => recorded
  | t :: rest, recorded =>
    match alGet t ids with
    | some i => recordIds depId ids rest (alSet t i recorded)
    | Option.none => recordIds depId ids rest (alSet t (depId t) recorded)

/-- The scanning loop of `Param._calculate_from_depends_on` (lines 152-172).
`fullDeps` is `self._depends_on`; the recursion walks the remaining
dependencies carrying the `ids` accumulator of tokens computed so far.
Returns the updated state, the list of dependencies scanned, and the number
of `default_callback` invocations. -/
def scanDepends (name : String) (cb : Option PyVal) (depId : String → Int)
    (fullDeps : List String) :
    List String → List (String × Int) → DepState →
    Except PyErr (DepState × List String × Nat)
  | [], _, st => .ok (st, [], 0)
  | t :: rest, ids, st =>
    let oldId : Int := (alGet t st.recorded).getD (-1)
    let newId : Int := depId t
    let ids₁ := alSet t newId ids
    if oldId ≠ newId then
      match cb with
      | Option.none => .error (.valueError (paramDependsCbMsg name fullDeps))
      | some v =>
        .ok ({ ffParams := alSet name v st.ffParams,
               recorded := recordIds depId ids₁ fullDeps st.recorded },
             [t], 1)
    else
      match scanDepends name cb depId fullDeps rest ids₁ st with
      | .ok (st₁, scanned, count) => .ok (st₁, t :: scanned, count)
      | .error e => .error e

/-- `Param._calculate_from_depends_on` (lines 145-172): a no-op when the
dependency list is empty, otherwise the scan starting from an empty `ids`. -/
def calculateFromDependsOn (name : String) (cb : Option PyVal)
    (depId : String → Int) (dependsOn : List String) (st : DepState) :
    Except PyErr (DepState × List String × Nat) :=
  if dependsOn = [] then .ok (st, [], 0)
  else scanDepends name cb depId dependsOn dependsOn [] st

/-- The dependency branch of `Param.__get__` (lines 129-130 and 143):
run `_calculate_from_depends_on`, then return `obj.__ff_params__[self._name]`. -/
def paramGetDepends (name : String) (cb : Option PyVal) (depId : String → Int)
    (dependsOn : List String) (st : DepState) :
    Except PyErr (PyVal × DepState × List String × Nat) :=
  match calculateFromDependsOn name cb depId dependsOn st with
  | .error e => .error e
  | .ok (st₁, scanned, count) =>
    match alGet name st₁.ffParams with
    | some v => .ok (v, st₁, scanned, count)
    | Option.none => .error (.keyError name)

/-! ## Execution lifecycle (`Composable.__call__`, lines 536-579)

The transient run-state of one `Composable` instance plus the two run-override
dictionaries and the context handle.  The wrapped computation (middleware chain
or bare `_run`) is a parameter `body`: it receives the final keyword arguments
and the instance state, may mutate the state (e.g. through `_prepare_child` of
child reads), and either returns a value or raises.
-/

/-- The shared context store, reduced to what `__call__` touches:
`clear_all`, `set("run_id", ...)` and `create_local_context(path)`. -/
structure Context where
  entries : List (String × PyVal)
  locals : List String
  deriving DecidableEq

def contextClearAll (_c : Context) : Context := ⟨[], []⟩

def contextSet (k : String) (v : PyVal) (c : Context) : Context :=
  { c with entries := alSet k v c.entries }

def createLocalContext (path : String) (c : Context) : Context :=
  if path ∈ c.locals then c else { c with locals := c.locals ++ [path] }

/-- Transient and override state of a `Composable` instance.  Field names
follow the source: `__ff_run_kwargs__`, `__ff_run_temp_kwargs__`,
`_ff_in_run`, `_ff_prefix` (here `ffPfx`), `_ff_name`, `_ff_run_id`,
`_ff_childs_called`, and the context handle. -/
structure CompState where
  ffRunKwargs : List (String × PyVal)
  ffRunTempKwargs : List (String × PyVal)
  ffInRun : Bool
  ffPfx : String
  ffName : String
  ffRunId : String
  ffChildsCalled : List (String × Nat)
  ctx : Context
  deriving DecidableEq

/-- `Composable.abs_path` (lines 508-522). -/
def absPath (st : CompState) : String :=
  if st.ffPfx = "." then "." ++ st.ffName else st.ffPfx ++ "." ++ st.ffName

/-- Python `dict.update`: entries of `extra` override entries of `base`. -/
def dictUpdate (base extra : List (String × PyVal)) : List (String × PyVal) :=
  extra.foldl (fun acc kv => alSet kv.1 kv.2 acc) base

/-- The pre-body part of `__call__` (lines 538-561): mark in-run, merge the
`_ff_run_kwargs` call argument into the one-shot overrides (`set_run` with
`temp=True`, flat case), do the root-only administrative setup, open the local
context scope, and merge persisted then one-shot overrides into the keyword
arguments.  Returns the final keyword arguments and the prepared state. -/
def callPrep (freshRunId : String) (runKwargsArg : List (String × PyVal))
    (kwargs : List (String × PyVal)) (st : CompState) :
    List (String × PyVal) × CompState :=
  let st₁ := { st with ffInRun := true }
  let st₂ :=
    if runKwargsArg ≠ [] then
      { st₁ with ffRunTempKwargs := dictUpdate st₁.ffRunTempKwargs runKwargsArg }
    else st₁
  let st₃ :=
    if st₂.ffPfx = "" then
      { st₂ with
        ffRunId := freshRunId,
        ctx := contextSet "run_id" (.str freshRunId) (contextClearAll st₂.ctx) }
    else st₂
  let st₄ := { st₃ with ctx := createLocalContext (absPath st₃) st₃.ctx }
  let kw₁ := if st₄.ffRunKwargs ≠ [] then dictUpdate kwargs st₄.ffRunKwargs else kwargs
  let kw₂ :=
    if st₄.ffRunTempKwargs ≠ [] then dictUpdate kw₁ st₄.ffRunTempKwargs else kw₁
  (kw₂, st₄)

/-- The `finally` block of `__call__` (lines 571-577): clear the one-shot
overrides and reset the transient fields to their idle values. -/
def callCleanup (st : CompState) : CompState :=
  { st with
    ffRunTempKwargs := [],
    ffInRun := false,
    ffPfx := "",
    ffName := "",
    ffRunId := "",
    ffChildsCalled := [] }

/-- `Composable.__call__` (lines 536-579).  The `except` clause re-raises the
same exception object (`raise e from None`), so the body result is passed
through unchanged; the `finally` clause always runs `callCleanup`. -/
def composableCall
    (body : List (String × PyVal) → CompState → Except PyErr PyVal × CompState)
    (freshRunId : String) (runKwargsArg : List (String × PyVal))
    (kwargs : List (String × PyVal)) (st : CompState) :
    Except PyErr PyVal × CompState :=
  let prepped := callPrep freshRunId runKwargsArg kwargs st
  let ran := body prepped.1 prepped.2
  (ran.1, callCleanup ran.2)

/-! ## Child naming (`Composable._prepare_child`, lines 690-699) -/

/-- `_prepare_child`: when the parent is in-run, stamp the child with the
parent-derived path prefix, the (possibly suffixed) assigned name and the
parent context, and bump the per-parent occurrence counter.  The name is
computed before the counter is incremented, exactly as in the source. -/
def prepareChild (parent child : CompState) (name : String) :
    CompState × CompState :=
  if parent.ffInRun then
    let assigned :=
      match alGet name parent.ffChildsCalled with
      | Option.none => name
      | some c => name ++ "[" ++ toString c ++ "]"
    let child₁ :=
      { child with
        ffPfx := parent.ffPfx ++ "." ++ parent.ffName,
        ffName := assigned,
        ctx := parent.ctx }
    let parent₁ :=
      { parent with
        ffChildsCalled :=
          alSet name ((alGet name parent.ffChildsCalled).getD 0 + 1)
            parent.ffChildsCalled }
    (parent₁, child₁)
  else (parent, child)

/-- The assigned names a child receives over `n` successive reads of the same
sub-unit field by the same parent (each read runs `_prepare_child`). -/
def childNames (parent child : CompState) (name : String) : Nat → List String
  | 0 => []
  | n + 1 =>
    let pc := prepareChild parent child name
    pc.2.ffName :: childNames pc.1 pc.2 name n

/-! ## Cyclic composition graphs (claim about recursion errors)

The cyclic two-flow graph of the repository (`FlowA(x=1)` whose `node_a` is
`FlowB(x=2)` whose `node_b` is `FlowA` again).  `FlowA.run` is
`self.x + self.node_a()`: each nested `__call__` consumes one unit of the
interpreter stack budget (`fuel`); at budget zero CPython raises
`RecursionError`, which no handler on the `__call__` path intercepts. -/

def idleCompState : CompState :=
  { ffRunKwargs := [], ffRunTempKwargs := [], ffInRun := false, ffPfx := "",
    ffName := "", ffRunId := "", ffChildsCalled := [], ctx := ⟨[], []⟩ }

def cyclicCall : Nat → Bool → Except PyErr PyVal
  | 0, _ => .error .recursionError
  | fuel + 1, isA =>
    (composableCall
      (fun _ s =>
        (match cyclicCall fuel (!isA) with
         | .ok (.int v) => .ok (.int ((if isA then 1 else 2) + v))
         | .ok _ => .error (.typeError "unsupported operand type for +")
         | .error e => .error e, s))
      "run0" [] [] idleCompState).1

/-- The nested type/params/nodes document of `_describe_inst`. -/
inductive DescDoc where
  | mk (type : String) (params : List (String × Option PyVal))
      (nodes : List (String × Option DescDoc))

/-- `Composable._describe_inst` (lines 789-809) on the same cyclic two-flow
graph.  The per-node traversal is wrapped in a bare `try/except` (lines
793-797): a failure of the recursive call — including the `RecursionError`
raised when the stack budget runs out — is caught and recorded as `None`
instead of propagating. -/
def describeCyclic : Nat → Bool → Except PyErr DescDoc
  | 0, _ => .error .recursionError
  | fuel + 1, isA =>
    .ok (.mk (if isA then "tests.FlowA" else "tests.FlowB")
      [("x", some (.int (if isA then 1 else 2)))]
      [((if isA then "node_a" else "node_b"),
        (describeCyclic fuel (!isA)).toOption)])

/-! ## Field writes (`Param.__set__` lines 174-189, `Node.__set__` lines 338-344) -/

/-- Error message of the depends-on branch of `Param.__set__` (line 177). -/
def paramSetDependsMsg (name : String) (deps : List String) : String :=
  "Param " ++ name ++ " depends on " ++ String.intercalate ", " deps ++
    ", cannot be set directly"

/-- The attribute names that `Composable.__init__` (lines 466-506) and
`_initialize` (lines 627-652) store into the instance `__dict__` (every one
starts with an underscore, so `__setattr__` passes it straight through to
`object.__setattr__`).  No code path ever stores a key `__annotations__`
into an instance dictionary. -/
def initInstanceDictKeys : List String :=
  ["__ff_params__", "__ff_nodes__", "__ff_depends__", "__ff_run_kwargs__",
   "__ff_run_temp_kwargs__", "_ff_params", "_ff_nodes", "_ff_config",
   "_ff_context", "_ff_in_run", "_ff_prefix", "_ff_name", "_ff_run_id",
   "_ff_childs_called", "_ff_init_called", "_middleware", "_ff_initializing"]

/-- `obj.__dict__["__annotations__"]` for an instance built by
`Composable.__init__`: the instance dictionary holds only the keys of
`initInstanceDictKeys`, so the subscript misses (`KeyError`).  The entry, were
it present, would map field names to declared types. -/
def initInstanceAnns : Option (List (String × PyTy)) := Option.none

/-- `Param.__set__` (lines 174-189).  `instAnns` models the
`obj.__dict__["__annotations__"]` subscript of line 181: `Option.none` when the
key is absent from the instance dictionary (which `initInstanceAnns` shows is
the case for every instance the program builds).  The `refresh_on_set` re-run
of `_initialize` touches only config/context wiring, not `__ff_params__`. -/
def paramSet (dependsOn : List String) (strictType : Bool) (name : String)
    (instAnns : Option (List (String × PyTy))) (value : PyVal)
    (ffParams : List (String × PyVal)) :
    Except PyErr (List (String × PyVal)) :=
  if dependsOn ≠ [] then .error (.valueError (paramSetDependsMsg name dependsOn))
  else if strictType then
    match instAnns with
    | Option.none => .error (.keyError "__annotations__")
    | some anns =>
      match alGet name anns with
      | Option.none => .error (.keyError name)
      | some ty =>
        if ¬ instanceOf value ty then
          .error (.valueError ("Value is not of declared type for parameter " ++ name))
        else .ok (alSet name value ffParams)
  else .ok (alSet name value ffParams)

/-- `Node.__set__` (lines 338-344).  The descriptor carries `dependsOn`
(`self._depends_on`), but the setter never consults it: the only check is
`isinstance(value, Composable)`. -/
def nodeSet (dependsOn : List String) (name : String) (value : PyVal)
    (ffNodes : List (String × PyVal)) :
    Except PyErr (List (String × PyVal)) :=
  if ¬ value.isComposable then
    .error (.valueError "Node can only be used with Composable")
  else .ok (alSet name value ffNodes)

/-! ## Definition-time validation (`MetaComposable.__new__` lines 384-418,
`Param._validate_args` lines 102-112, `Node.__init__` lines 239-274,
`Composable._protected_keywords` lines 672-682)

A class definition is modelled as an ordered attribute table; descriptors
carry the constructor arguments the checks consult (`default` presence,
`depends_on`, `default_callback` presence, `no_cache`), plus the class
annotation table (does the annotation contain `Composable`?) and the method
resolution order with each classes `_keywords` list. -/

inductive Descr where
  | param (default : Option PyVal) (dependsOn : List String)
      (hasDefaultCallback noCache : Bool)
  | node (default : Option PyVal) (dependsOn : List String)
      (hasDefaultCallback noCache : Bool)
  deriving DecidableEq

inductive ClassAttr where
  | descr (d : Descr)
  | plain (v : PyVal)
  deriving DecidableEq

def ClassAttr.isDescr : ClassAttr → Bool
  | .descr _ => true
  | .plain _ => false

/-- The descriptor-wrapping loop at the top of `MetaComposable.__new__`
(lines 387-396): every annotated public name without an explicit descriptor
receives a `Node` (annotation mentions `Composable`) or `Param` descriptor,
with the plain class attribute, if any, as its default. -/
def wrapAttrs (attrs : List (String × ClassAttr)) :
    List (String × Bool) → List (String × ClassAttr)
  | [] => attrs
  | (name, containsComp) :: rest =>
    if startsWithUnderscore name then wrapAttrs attrs rest
    else
      match alGet name attrs with
      | some (.descr _) => wrapAttrs attrs rest
      | some (.plain v) =>
        wrapAttrs
          (alSet name
            (.descr (if containsComp then .node (some v) [] false false
                     else .param (some v) [] false false)) attrs) rest
      | Option.none =>
        wrapAttrs
          (alSet name
            (.descr (if containsComp then .node Option.none [] false false
                     else .param Option.none [] false false)) attrs) rest

/-- `Param._validate_args` (lines 102-112), run from `__set_name__` during
type construction. -/
def paramValidateArgs (qualName : String) (dependsOn : List String)
    (hasDefaultCallback noCache : Bool) : Except PyErr Unit :=
  if dependsOn ≠ [] ∧ ¬ hasDefaultCallback then
    .error (.invalidParamDefinition
      ("Must provide default_callback when param has depends_on: " ++ qualName))
  else if dependsOn ≠ [] ∧ noCache then
    .error (.invalidParamDefinition
      ("Cannot set no_cache=True if param has depends_on: " ++ qualName))
  else .ok ()

/-- `type.__new__` calling `__set_name__` on every descriptor in attribute
order; only `Param.__set_name__` validates (lines 197-205).  An
`InvalidParamDefinition` escaping here surfaces from the metaclass through the
`__cause__` unwrapping of lines 398-404. -/
def setNameAll (clsname : String) :
    List (String × ClassAttr) → Except PyErr Unit
  | [] => .ok ()
  | (name, .descr (.param _ deps hasCb noCache)) :: rest =>
    match paramValidateArgs (clsname ++ "." ++ name) deps hasCb noCache with
    | .ok _ => setNameAll clsname rest
    | .error e => .error e
  | _ :: rest => setNameAll clsname rest

/-- Inner loop of `_protected_keywords`: add each keyword of one class of the
mro, skipping keywords already claimed by an earlier (more derived) class. -/
def addKeywords (clsname : String) (acc : List (String × String)) :
    List String → List (String × String)
  | [] => acc
  | kw :: rest =>
    if (alGet kw acc).isSome then addKeywords clsname acc rest
    else addKeywords clsname (acc ++ [(kw, clsname)]) rest

def protectedKeywordsAux (acc : List (String × String)) :
    List (String × List String) → List (String × String)
  | [] => acc
  | (clsname, kws) :: rest => protectedKeywordsAux (addKeywords clsname acc kws) rest

/-- `Composable._protected_keywords` (lines 672-682): walk the mro from the
most derived class, keeping the first class that declares each keyword. -/
def protectedKeywords (mro : List (String × List String)) :
    List (String × String) :=
  protectedKeywordsAux [] mro

/-- The specification-side first declarer: the first class in mro order whose
`_keywords` list holds the keyword. -/
def firstKeywordDeclarer (kw : String) :
    List (String × List String) → Option String
  | [] => Option.none
  | (clsname, kws) :: rest =>
    if kw ∈ kws then some clsname else firstKeywordDeclarer kw rest

/-- The name-checking loop of `MetaComposable.__new__` (lines 407-417). -/
def checkNames (mro : List (String × List String)) :
    List (String × ClassAttr) → Except PyErr Unit
  | [] => .ok ()
  | (name, a) :: rest =>
    if a.isDescr then
      if startsWithUnderscore name then
        .error (.valueError ("Node and param name cannot start with _: " ++ name))
      else
        match alGet name (protectedKeywords mro) with
        | some declaredBy => .error (.protectedKeywordError name declaredBy)
        | Option.none => checkNames mro rest
    else checkNames mro rest

/-- `MetaComposable.__new__` (lines 384-418): wrap annotated fields, build the
type (running `__set_name__` validation), then check field names.  The class
object is modelled by its processed attribute table; an error means the class
is never created. -/
def metaNew (clsname : String) (attrs : List (String × ClassAttr))
    (anns : List (String × Bool)) (mro : List (String × List String)) :
    Except PyErr (List (String × ClassAttr)) :=
  let wrapped := wrapAttrs attrs anns
  match setNameAll clsname wrapped with
  | .error e => .error e
  | .ok _ =>
    match checkNames mro wrapped with
    | .error e => .error e
    | .ok _ => .ok wrapped

/-- `Node.__init__` (lines 239-274).  The only definition-time check is
`depends_on` together with `no_cache`; note that the message of the intended
`ValueError` interpolates `self._name`, an attribute that `__set_name__` has
not assigned yet, so evaluating the f-string raises `AttributeError` first.
There is no depends-on-without-callback check here. -/
def nodeInit (default : Option PyVal) (dependsOn : List String)
    (hasDefaultCallback noCache : Bool) : Except PyErr Descr :=
  if dependsOn ≠ [] ∧ noCache then .error (.attributeError "_name")
  else .ok (.node default dependsOn hasDefaultCallback noCache)

/-- A field declaration as written in a class body. -/
inductive RawField where
  | paramDecl (default : Option PyVal) (dependsOn : List String)
      (hasDefaultCallback noCache : Bool)
  | nodeDecl (default : Option PyVal) (dependsOn : List String)
      (hasDefaultCallback noCache : Bool)
  | plainDecl (v : PyVal)
  deriving DecidableEq

/-- Evaluating the class body: each `Node(...)` / `Param(...)` call runs its
`__init__` (only `Node.__init__` can raise at this stage). -/
def evalClassBody : List (String × RawField) →
    Except PyErr (List (String × ClassAttr))
  | [] => .ok []
  | (name, .paramDecl d deps hasCb noCache) :: rest =>
    match evalClassBody rest with
    | .ok attrs => .ok ((name, .descr (.param d deps hasCb noCache)) :: attrs)
    | .error e => .error e
  | (name, .nodeDecl d deps hasCb noCache) :: rest =>
    match nodeInit d deps hasCb noCache with
    | .error e => .error e
    | .ok descr =>
      match evalClassBody rest with
      | .ok attrs => .ok ((name, .descr descr) :: attrs)
      | .error e => .error e
  | (name, .plainDecl v) :: rest =>
    match evalClassBody rest with
    | .ok attrs => .ok ((name, .plain v) :: attrs)
    | .error e => .error e

/-- The whole definition-time pipeline: evaluate the class body, then run the
metaclass. -/
def classDefine (clsname : String) (raw : List (String × RawField))
    (anns : List (String × Bool)) (mro : List (String × List String)) :
    Except PyErr (List (String × ClassAttr)) :=
  match evalClassBody raw with
  | .error e => .error e
  | .ok attrs => metaNew clsname attrs anns mro

/-- The `_keywords` list of `Composable` (lines 453-464). -/
def composableKeywords : List String :=
  ["last_run", "apply", "Middleware", "Config", "config", "run", "params",
   "prefix", "nodes", "context"]

/-! ## Node dependency recomputation (`Node._calculate_from_depends_on`,
lines 309-336) — the same loop as the `Param` version, writing to
`obj.__ff_nodes__` and raising a differently-worded `ValueError`. -/

structure NodeDepState where
  ffNodes : List (String × PyVal)
  recorded : List (String × Int)
  deriving DecidableEq

/-- Error message of the missing-callback branch of
`Node._calculate_from_depends_on` (line 323). -/
def nodeDependsCbMsg (name : String) (deps : List String) : String :=
  "Parameter " ++ name ++ " depends on " ++ String.intercalate ", " deps ++
    " is a computed param and require default_callback"

def nodeScanDepends (name : String) (cb : Option PyVal) (depId : String → Int)
    (fullDeps : List String) :
    List String → List (String × Int) → NodeDepState →
    Except PyErr (NodeDepState × List String × Nat)
  | [], _, st => .ok (st, [], 0)
  | t :: rest, ids, st =>
    let oldId : Int := (alGet t st.recorded).getD (-1)
    let newId : Int := depId t
    let ids₁ := alSet t newId ids
    if oldId ≠ newId then
      match cb with
      | Option.none => .error (.valueError (nodeDependsCbMsg name fullDeps))
      | some v =>
        .ok ({ ffNodes := alSet name v st.ffNodes,
               recorded := recordIds depId ids₁ fullDeps st.recorded },
             [t], 1)
    else
      match nodeScanDepends name cb depId fullDeps rest ids₁ st with
      | .ok (st₁, scanned, count) => .ok (st₁, t :: scanned, count)
      | .error e => .error e

def nodeCalculateFromDependsOn (name : String) (cb : Option PyVal)
    (depId : String → Int) (dependsOn : List String) (st : NodeDepState) :
    Except PyErr (NodeDepState × List String × Nat) :=
  if dependsOn = [] then .ok (st, [], 0)
  else nodeScanDepends name cb depId dependsOn dependsOn [] st

/-! ## Interface compatibility (`Composable.is_compatible`, lines 894-937)

Annotations are an abstract type `α`; the `is_compatible_with` helper (from
`theflow.utils.typings`, outside the embedded file) is an abstract parameter
`compat`.  The declared reference signatures use `Option` for the `empty`
sentinel: `Option.none` models an absent (`empty`) reference signature. -/

/-- The input-side loop of the node branch (lines 919-929), including the
`ok_input = False` initialisation: the accumulator enters as `false` and is
overwritten by each successful comparison. -/
def okInputLoop {α : Type} (compat : α → α → Bool)
    (targetInput : List (String × α)) :
    Bool → List (String × α) → Bool
  | acc, [] => acc
  | _, (name, annot) :: rest =>
    match alGet name targetInput with
    | Option.none => false
    | some ta =>
      if compat ta annot then okInputLoop compat targetInput (compat ta annot) rest
      else false

/-- The input side: an absent (`empty`) reference signature is immediately
compatible. -/
def okInputSide {α : Type} (compat : α → α → Bool)
    (referenceInput : Option (List (String × α)))
    (targetInput : List (String × α)) : Bool :=
  match referenceInput with
  | Option.none => true
  | some ref => okInputLoop compat targetInput false ref

/-- The output side (lines 931-934). -/
def okOutputSide {α : Type} (compat : α → α → Bool)
    (referenceOutput : Option α) (targetOutput : α) : Bool :=
  match referenceOutput with
  | Option.none => true
  | some ro => compat targetOutput ro

/-- The node branch of `Composable.is_compatible` (lines 913-935), written as
one function mirroring the source control flow. -/
def isCompatibleNode {α : Type} (compat : α → α → Bool)
    (referenceInput : Option (List (String × α))) (referenceOutput : Option α)
    (targetInput : List (String × α)) (targetOutput : α) : Bool :=
  let okInput :=
    match referenceInput with
    | Option.none => true
    | some ref => okInputLoop compat targetInput false ref
  let okOutput :=
    match referenceOutput with
    | Option.none => true
    | some ro => compat targetOutput ro
  okInput && okOutput

/-! ## Override assignment (`Composable.set`, lines 716-727, and its use by
`__init__`, lines 488-491)

The per-field assignment (`setattr`, which routes through the descriptor
machinery) is an abstract fallible update `assign`; dotted keys have already
been expanded by `unflatten_dict` and the nested-dictionary branch (which
delegates to a child `set`) is not taken for the flat scalar overrides
modelled here. -/

def composableSet {σ : Type} (strict : Bool)
    (assign : String → PyVal → σ → Except PyErr σ) :
    List (String × PyVal) → σ → Except PyErr σ
  | [], st => .ok st
  | (name, v) :: rest, st =>
    match assign name v st with
    | .ok st₁ => composableSet strict assign rest st₁
    | .error e =>
      if strict then .error e else composableSet strict assign rest st

/-- The constructor-override calls of `__init__`: `self.set(params)` with the
default `strict=False`. -/
def composableInitSet {σ : Type}
    (assign : String → PyVal → σ → Except PyErr σ)
    (params : List (String × PyVal)) (st : σ) : Except PyErr σ :=
  composableSet false assign params st

/-! ## Concrete example inputs used to evaluate the definitions -/

/-- Identity tokens of two dependency fields in one example instance. -/
def depIdEx : String → Int := fun s => if s = "a" then 5 else 7

/-- A wrapped computation that ignores its arguments and returns `None`. -/
def bodyEx : List (String × PyVal) → CompState → Except PyErr PyVal × CompState :=
  fun _ s => (.ok .none, s)

/-- A per-field assignment that rejects the field named `bad`. -/
def assignEx : String → PyVal → List (String × PyVal) →
    Except PyErr (List (String × PyVal)) :=
  fun n v s => if n = "bad" then .error (.valueError "no") else .ok (alSet n v s)

/-- A parent instance inside an active run, before any child read. -/
def parentEx : CompState := { idleCompState with ffInRun := true }

/-! # Theorems -/

theorem alGet_alSet_self {α : Type} (k : String) (v : α) :
    ∀ l : List (String × α), alGet k (alSet k v l) = some v := by
  intro l
  induction l with
  | nil => simp [alGet, alSet]
  | cons hd tl ih =>
    by_cases h : hd.1 = k
    · simp [alSet, h, alGet]
    · simp [alSet, h, alGet, ih]

theorem alGet_alSet_ne {α : Type} (k₁ k : String) (v : α) (h : k₁ ≠ k) :
    ∀ l : List (String × α), alGet k (alSet k₁ v l) = alGet k l := by
  intro l
  induction l with
  | nil => simp [alGet, alSet, h]
  | cons hd tl ih =>
    obtain ⟨a, b⟩ := hd
    by_cases h₁ : a = k₁
    · subst h₁
      simp only [alSet, if_pos rfl, alGet]
      rw [if_neg h, if_neg h]
    · simp only [alSet, if_neg h₁, alGet]
      by_cases h₂ : a = k
      · rw [if_pos h₂, if_pos h₂]
      · rw [if_neg h₂, if_neg h₂, ih]

theorem recordIds_get (depId : String → Int) (ids : List (String × Int))
    (hids : ∀ k i, alGet k ids = some i → i = depId k) (u : String) :
    ∀ (l : List String) (rec : List (String × Int)),
      (alGet u rec = some (depId u) ∨ u ∈ l) →
      alGet u (recordIds depId ids l rec) = some (depId u) := by
  intro l
  induction l with
  | nil =>
    intro rec h
    rcases h with h | h
    · simpa [recordIds] using h
    · simp at h
  | cons t rest ih =>
    intro rec h
    have step : ∀ w : Int, (w = depId t) →
        alGet u (alSet t w rec) = some (depId u) ∨ u ∈ rest →
        alGet u (recordIds depId ids rest (alSet t w rec)) = some (depId u) := by
      intro w _ hw
      exact ih (alSet t w rec) hw
    cases hg : alGet t ids with
    | none =>
      simp only [recordIds, hg]
      apply ih
      by_cases hu : u = t
      · left
        subst hu
        simp [alGet_alSet_self]
      · rcases h with h | h
        · left
          rwa [alGet_alSet_ne t u _ (fun he => hu he.symm)]
        · rcases List.mem_cons.mp h with h | h
          · exact absurd h hu
          · right; exact h
    | some i =>
      have hi : i = depId t := hids t i hg
      simp only [recordIds, hg]
      apply ih
      by_cases hu : u = t
      · left
        subst hu
        rw [alGet_alSet_self, hi]
      · rcases h with h | h
        · left
          rwa [alGet_alSet_ne t u _ (fun he => hu he.symm)]
        · rcases List.mem_cons.mp h with h | h
          · exact absurd h hu
          · right; exact h

theorem hids_alSet (depId : String → Int) (ids : List (String × Int)) (t : String)
    (h : ∀ k i, alGet k ids = some i → i = depId k) :
    ∀ k i, alGet k (alSet t (depId t) ids) = some i → i = depId k := by
  intro k i hk
  by_cases he : k = t
  · subst he
    rw [alGet_alSet_self] at hk
    exact (Option.some.inj hk).symm
  · rw [alGet_alSet_ne t k _ (fun he₁ => he he₁.symm)] at hk
    exact h k i hk

theorem scanDepends_nomismatch (name : String) (cb : Option PyVal)
    (depId : String → Int) (fullDeps : List String) :
    ∀ (remaining : List String) (ids : List (String × Int)) (st : DepState),
      (∀ t ∈ remaining, (alGet t st.recorded).getD (-1) = depId t) →
      scanDepends name cb depId fullDeps remaining ids st = .ok (st, remaining, 0) := by
  intro remaining
  induction remaining with
  | nil => intro ids st _; rfl
  | cons t rest ih =>
    intro ids st h
    have ht : (alGet t st.recorded).getD (-1) = depId t := h t (List.mem_cons_self t rest)
    simp only [scanDepends]
    rw [if_neg (not_not_intro ht)]
    rw [ih (alSet t (depId t) ids) st (fun u hu => h u (List.mem_cons_of_mem t hu))]

theorem scanDepends_mismatch (name : String) (v : PyVal) (depId : String → Int)
    (fullDeps : List String) (t : String) (post : List String) :
    ∀ (pre : List String) (ids : List (String × Int)) (st : DepState),
      (∀ k i, alGet k ids = some i → i = depId k) →
      (∀ u ∈ pre, (alGet u st.recorded).getD (-1) = depId u) →
      (alGet t st.recorded).getD (-1) ≠ depId t →
      ∃ rec₁,
        scanDepends name (some v) depId fullDeps (pre ++ t :: post) ids st
          = .ok (⟨alSet name v st.ffParams, rec₁⟩, pre ++ [t], 1)
        ∧ ∀ u ∈ fullDeps, alGet u rec₁ = some (depId u) := by
  intro pre
  induction pre with
  | nil =>
    intro ids st hids _ hmis
    refine ⟨recordIds depId (alSet t (depId t) ids) fullDeps st.recorded, ?_, ?_⟩
    · simp only [List.nil_append, scanDepends]
      rw [if_pos hmis]
    · intro u hu
      exact recordIds_get depId _ (hids_alSet depId ids t hids) u fullDeps
        st.recorded (Or.inr hu)
  | cons w pre₁ ih =>
    intro ids st hids hpre hmis
    have hw : (alGet w st.recorded).getD (-1) = depId w :=
      hpre w (List.mem_cons_self w pre₁)
    obtain ⟨rec₁, heq, hprop⟩ :=
      ih (alSet w (depId w) ids) st (hids_alSet depId ids w hids)
        (fun u hu => hpre u (List.mem_cons_of_mem w hu)) hmis
    refine ⟨rec₁, ?_, hprop⟩
    simp only [List.cons_append, scanDepends]
    rw [if_neg (not_not_intro hw)]
    simp only [List.append_eq]
    rw [heq]

/-- C1: a read of a dependency-bearing `Param` scans the declared dependencies
in order against the recorded identity tokens; with no mismatch it returns the
cached value without invoking the callback; at the first mismatch it invokes
the callback exactly once, stores the result, overwrites the recorded tokens of
every declared dependency (scanned or not), and stops scanning. -/
theorem param_depends_read_c1 (name : String) (v cached : PyVal)
    (depId : String → Int) (deps : List String) (st : DepState)
    (hne : deps ≠ []) :
    ((∀ t ∈ deps, (alGet t st.recorded).getD (-1) = depId t) →
      alGet name st.ffParams = some cached →
      paramGetDepends name (some v) depId deps st = .ok (cached, st, deps, 0))
    ∧ (∀ pre t post, deps = pre ++ t :: post →
        (∀ u ∈ pre, (alGet u st.recorded).getD (-1) = depId u) →
        (alGet t st.recorded).getD (-1) ≠ depId t →
        ∃ rec₁,
          paramGetDepends name (some v) depId deps st
            = .ok (v, ⟨alSet name v st.ffParams, rec₁⟩, pre ++ [t], 1)
          ∧ ∀ u ∈ deps, alGet u rec₁ = some (depId u)) := by
  constructor
  · intro hall hcached
    unfold paramGetDepends calculateFromDependsOn
    rw [if_neg hne, scanDepends_nomismatch name (some v) depId deps deps [] st hall]
    simp [hcached]
  · intro pre t post hdeps hpre hmis
    subst hdeps
    obtain ⟨rec₁, heq, hprop⟩ :=
      scanDepends_mismatch name v depId (pre ++ t :: post) t post pre [] st
        (by intro k i h; simp [alGet] at h) hpre hmis
    refine ⟨rec₁, ?_, hprop⟩
    unfold paramGetDepends calculateFromDependsOn
    rw [if_neg hne, heq]
    simp [alGet_alSet_self]

/-- Witness for C1: on dependencies `["a", "b"]`, a read with matching tokens
returns the cached value with zero callback invocations; a read with a
mismatch on `"b"` invokes the callback once, scans only `["a", "b"]`, and
refreshes both recorded tokens. -/
theorem param_depends_read_c1_witness :
    (paramGetDepends "y" (some (.int 9)) depIdEx ["a", "b"]
        ⟨[("y", .int 3)], [("a", 5), ("b", 7)]⟩
      = .ok (.int 3, ⟨[("y", .int 3)], [("a", 5), ("b", 7)]⟩, ["a", "b"], 0))
    ∧ ∃ rec₁,
        paramGetDepends "y" (some (.int 9)) depIdEx ["a", "b"]
            ⟨[("y", .int 3)], [("a", 5), ("b", 5)]⟩
          = .ok (.int 9,
              ⟨alSet "y" (.int 9) [("y", .int 3)], rec₁⟩, ["a", "b"], 1)
        ∧ ∀ u ∈ ["a", "b"], alGet u rec₁ = some (depIdEx u) := by
  constructor
  · exact (param_depends_read_c1 "y" (.int 9) (.int 3) depIdEx ["a", "b"]
      ⟨[("y", .int 3)], [("a", 5), ("b", 7)]⟩ (by decide)).1 (by decide) (by decide)
  · exact (param_depends_read_c1 "y" (.int 9) (.int 3) depIdEx ["a", "b"]
      ⟨[("y", .int 3)], [("a", 5), ("b", 5)]⟩ (by decide)).2 ["a"] "b" []
      rfl (by decide) (by decide)

theorem callPrep_runKwargs (rid : String) (arg kwargs : List (String × PyVal))
    (st : CompState) :
    (callPrep rid arg kwargs st).2.ffRunKwargs = st.ffRunKwargs := by
  simp only [callPrep]
  split <;> split <;> rfl

/-- C2: after every `Composable.__call__`, whether the body returns or raises,
the one-shot overrides are cleared, the in-run flag, path prefix, assigned
name, run identifier and child-invocation counters are back at their idle
values, the persisted run overrides are untouched (given that the body itself
leaves them alone), and the body result — value or exception — is passed
through unchanged. -/
theorem call_cleanup_c2
    (body : List (String × PyVal) → CompState → Except PyErr PyVal × CompState)
    (rid : String) (arg kwargs : List (String × PyVal)) (st : CompState)
    (hbody : ∀ kw s, ((body kw s).2).ffRunKwargs = s.ffRunKwargs) :
    (composableCall body rid arg kwargs st).2.ffRunTempKwargs = []
    ∧ (composableCall body rid arg kwargs st).2.ffInRun = false
    ∧ (composableCall body rid arg kwargs st).2.ffPfx = ""
    ∧ (composableCall body rid arg kwargs st).2.ffName = ""
    ∧ (composableCall body rid arg kwargs st).2.ffRunId = ""
    ∧ (composableCall body rid arg kwargs st).2.ffChildsCalled = []
    ∧ (composableCall body rid arg kwargs st).2.ffRunKwargs = st.ffRunKwargs
    ∧ (composableCall body rid arg kwargs st).1
        = (body (callPrep rid arg kwargs st).1 (callPrep rid arg kwargs st).2).1 := by
  refine ⟨rfl, rfl, rfl, rfl, rfl, rfl, ?_, rfl⟩
  show (callCleanup (body (callPrep rid arg kwargs st).1
      (callPrep rid arg kwargs st).2).2).ffRunKwargs = st.ffRunKwargs
  rw [show ∀ s : CompState, (callCleanup s).ffRunKwargs = s.ffRunKwargs
        from fun _ => rfl,
      hbody, callPrep_runKwargs]

/-- Witness for C2 at a concrete body, state and arguments. -/
theorem call_cleanup_c2_witness :
    (composableCall bodyEx "r1" [("k", .int 1)] [] parentEx).2.ffRunTempKwargs = []
    ∧ (composableCall bodyEx "r1" [("k", .int 1)] [] parentEx).2.ffInRun = false
    ∧ (composableCall bodyEx "r1" [("k", .int 1)] [] parentEx).2.ffPfx = ""
    ∧ (composableCall bodyEx "r1" [("k", .int 1)] [] parentEx).2.ffName = ""
    ∧ (composableCall bodyEx "r1" [("k", .int 1)] [] parentEx).2.ffRunId = ""
    ∧ (composableCall bodyEx "r1" [("k", .int 1)] [] parentEx).2.ffChildsCalled = []
    ∧ (composableCall bodyEx "r1" [("k", .int 1)] [] parentEx).2.ffRunKwargs
        = parentEx.ffRunKwargs
    ∧ (composableCall bodyEx "r1" [("k", .int 1)] [] parentEx).1
        = (bodyEx (callPrep "r1" [("k", .int 1)] [] parentEx).1
            (callPrep "r1" [("k", .int 1)] [] parentEx).2).1 :=
  call_cleanup_c2 bodyEx "r1" [("k", .int 1)] [] parentEx (fun _ _ => rfl)

theorem childNames_counted (name : String) :
    ∀ (n : Nat) (parent child : CompState) (c : Nat),
      parent.ffInRun = true →
      alGet name parent.ffChildsCalled = some c →
      childNames parent child name n
        = (List.range n).map (fun i => name ++ "[" ++ toString (c + i) ++ "]") := by
  intro n
  induction n with
  | zero => intro parent child c _ _; rfl
  | succ n ih =>
    intro parent child c hrun hc
    simp only [childNames, prepareChild, if_pos hrun, hc, Option.getD_some]
    have htail := ih
      { parent with ffChildsCalled := alSet name (c + 1) parent.ffChildsCalled }
      { child with
          ffPfx := parent.ffPfx ++ "." ++ parent.ffName,
          ffName := name ++ "[" ++ toString c ++ "]",
          ctx := parent.ctx }
      (c + 1) hrun (alGet_alSet_self name (c + 1) parent.ffChildsCalled)
    rw [htail, List.range_succ_eq_map, List.map_cons, List.map_map]
    have hfun : ((fun i => name ++ "[" ++ toString (c + i) ++ "]") ∘ Nat.succ)
        = fun i => name ++ "[" ++ toString (c + 1 + i) ++ "]" := by
      funext i
      simp only [Function.comp]
      have : c + Nat.succ i = c + 1 + i := by omega
      rw [this]
    rw [hfun]
    simp

/-- C4: a parent in an active run that reads the same named sub-unit field
`N ≥ 3` times hands the child the assigned names `name`, `name[1]`, `name[2]`,
... in call order, and the per-parent occurrence counters are reset at the end
of the top-level call. -/
theorem child_naming_c4 (parent child : CompState) (name : String) (N : Nat)
    (hrun : parent.ffInRun = true)
    (hfresh : alGet name parent.ffChildsCalled = Option.none)
    (hN : 3 ≤ N) :
    childNames parent child name N
      = name :: (List.range (N - 1)).map
          (fun i => name ++ "[" ++ toString (i + 1) ++ "]")
    ∧ ∀ (body : List (String × PyVal) → CompState → Except PyErr PyVal × CompState)
        (rid : String) (arg kw : List (String × PyVal)) (st : CompState),
        ((composableCall body rid arg kw st).2).ffChildsCalled = [] := by
  constructor
  · obtain ⟨n, rfl⟩ : ∃ n, N = n + 1 := ⟨N - 1, by omega⟩
    simp only [childNames, prepareChild, if_pos hrun, hfresh, Option.getD_none,
      Nat.zero_add]
    have htail := childNames_counted name n
      { parent with ffChildsCalled := alSet name 1 parent.ffChildsCalled }
      { child with
          ffPfx := parent.ffPfx ++ "." ++ parent.ffName,
          ffName := name,
          ctx := parent.ctx }
      1 hrun (alGet_alSet_self name 1 parent.ffChildsCalled)
    rw [htail]
    have hfun : (fun i => name ++ "[" ++ toString (1 + i) ++ "]")
        = fun i => name ++ "[" ++ toString (i + 1) ++ "]" := by
      funext i
      have : 1 + i = i + 1 := by omega
      rw [this]
    rw [hfun]
    simp
  · intro body rid arg kw st
    rfl

/-- Witness for C4: three reads of field `step` yield `step`, `step[1]`,
`step[2]`, and a concrete call leaves the counters empty. -/
theorem child_naming_c4_witness :
    childNames parentEx idleCompState "step" 3
      = "step" :: (List.range 2).map
          (fun i => "step" ++ "[" ++ toString (i + 1) ++ "]")
    ∧ ((composableCall bodyEx "r1" [] [] idleCompState).2).ffChildsCalled = [] :=
  ⟨(child_naming_c4 parentEx idleCompState "step" 3 rfl rfl (by decide)).1,
   (child_naming_c4 parentEx idleCompState "step" 3 rfl rfl (by decide)).2
     bodyEx "r1" [] [] idleCompState⟩

/-- Counterexample to C5: on the cyclic two-flow graph, `_describe_inst` does
not raise a recursion error — with stack budget 3 it returns a document
normally, the node that exhausted the budget recorded as `None` by the
per-node `try/except` of lines 793-797. -/
theorem describe_cyclic_returns_c5 :
    describeCyclic 3 true
      = .ok (.mk "tests.FlowA" [("x", some (.int 1))]
          [("node_a", some (.mk "tests.FlowB" [("x", some (.int 2))]
            [("node_b", some (.mk "tests.FlowA" [("x", some (.int 1))]
              [("node_a", Option.none)]))]))]) := rfl

/-- C5 (amended): invoking a composable that is its own transitive sub-unit
raises a recursion error at every stack budget — the error propagates through
every enclosing `__call__` —, while the structural description terminates and
returns a document (the over-deep node recorded as null) instead of raising. -/
theorem cyclic_recursion_c5 :
    (∀ (fuel : Nat) (isA : Bool), cyclicCall fuel isA = .error .recursionError)
    ∧ (∀ (fuel : Nat) (isA : Bool), 1 ≤ fuel →
        ∃ d, describeCyclic fuel isA = .ok d) := by
  constructor
  · intro fuel
    induction fuel with
    | zero => intro isA; rfl
    | succ n ih =>
      intro isA
      simp only [cyclicCall, composableCall, ih (!isA)]
  · intro fuel isA h
    match fuel, h with
    | n + 1, _ => exact ⟨_, rfl⟩

/-- Witness for C5 at concrete stack budgets. -/
theorem cyclic_recursion_c5_witness :
    cyclicCall 5 true = .error .recursionError
    ∧ ∃ d, describeCyclic 5 true = .ok d :=
  ⟨cyclic_recursion_c5.1 5 true, cyclic_recursion_c5.2 5 true (by decide)⟩

/-- Counterexample to C3: a `Node` field declared with a non-empty dependency
list accepts a direct assignment of a composable value — `Node.__set__` never
consults `self._depends_on`. -/
theorem node_set_depends_accepts_c3 :
    nodeSet ["x"] "child" (.comp 0) [] = .ok [("child", .comp 0)] := rfl

/-- C3 (amended): a dependency-bearing `Param` field rejects every direct
assignment; a dependency-bearing `Node` field accepts any composable value
(its setter only rejects non-composable values, dependencies or not). -/
theorem computed_field_write_c3 :
    (∀ (deps : List String) (strict : Bool) (name : String)
        (instAnns : Option (List (String × PyTy))) (v : PyVal)
        (ps : List (String × PyVal)), deps ≠ [] →
      paramSet deps strict name instAnns v ps
        = .error (.valueError (paramSetDependsMsg name deps)))
    ∧ (∀ (deps : List String) (name : String) (v : PyVal)
        (ns : List (String × PyVal)), v.isComposable = true →
      nodeSet deps name v ns = .ok (alSet name v ns))
    ∧ (∀ (deps : List String) (name : String) (v : PyVal)
        (ns : List (String × PyVal)), v.isComposable = false →
      nodeSet deps name v ns
        = .error (.valueError "Node can only be used with Composable")) := by
  refine ⟨?_, ?_, ?_⟩
  · intro deps strict name instAnns v ps hne
    simp [paramSet, hne]
  · intro deps name v ns hc
    simp [nodeSet, hc]
  · intro deps name v ns hc
    simp [nodeSet, hc]

/-- Witness for C3 (amended) at concrete fields and values. -/
theorem computed_field_write_c3_witness :
    paramSet ["a"] false "p" Option.none (.int 1) []
      = .error (.valueError (paramSetDependsMsg "p" ["a"]))
    ∧ nodeSet ["a"] "n" (.comp 2) [] = .ok (alSet "n" (.comp 2) [])
    ∧ nodeSet ["a"] "n" (.int 7) []
      = .error (.valueError "Node can only be used with Composable") :=
  ⟨computed_field_write_c3.1 ["a"] false "p" Option.none (.int 1) [] (by decide),
   computed_field_write_c3.2.1 ["a"] "n" (.comp 2) [] rfl,
   computed_field_write_c3.2.2 ["a"] "n" (.int 7) [] rfl⟩

/-- C6 (evaluating the code at the failing input): the instance dictionary
never holds a `__annotations__` key, so for a `strict_type` `Param` the
`obj.__dict__["__annotations__"]` subscript of `Param.__set__` raises
`KeyError` for every assigned value — conforming values are never stored and
non-conforming values never get the intended type-mismatch `ValueError`. -/
theorem strict_type_keyerror_c6 :
    "__annotations__" ∉ initInstanceDictKeys
    ∧ ∀ (name : String) (v : PyVal) (ps : List (String × PyVal)),
        paramSet [] true name initInstanceAnns v ps
          = .error (.keyError "__annotations__") := by
  refine ⟨by decide, ?_⟩
  intro name v ps
  rfl

theorem alGet_append {α : Type} (k : String) :
    ∀ l₁ l₂ : List (String × α),
      alGet k (l₁ ++ l₂)
        = match alGet k l₁ with
          | some v => some v
          | Option.none => alGet k l₂ := by
  intro l₁ l₂
  induction l₁ with
  | nil => simp [alGet]
  | cons hd tl ih =>
    by_cases h : hd.1 = k
    · simp [alGet, h]
    · simp [alGet, h, ih]

theorem alGet_addKeywords (k clsname : String) :
    ∀ (kws : List String) (acc : List (String × String)),
      alGet k (addKeywords clsname acc kws)
        = match alGet k acc with
          | some d => some d
          | Option.none => if k ∈ kws then some clsname else Option.none := by
  intro kws
  induction kws with
  | nil =>
    intro acc
    cases h : alGet k acc <;> simp [addKeywords, h]
  | cons kw rest ih =>
    intro acc
    cases hkw : alGet kw acc with
    | some d =>
      simp only [addKeywords, hkw, Option.isSome_some, if_pos]
      rw [ih acc]
      cases hk : alGet k acc with
      | some d₁ => rfl
      | none =>
        have hne : k ≠ kw := by
          intro he
          rw [he, hkw] at hk
          cases hk
        simp [List.mem_cons, hne]
    | none =>
      simp only [addKeywords, hkw, Option.isSome_none, Bool.false_eq_true,
        if_false]
      rw [ih (acc ++ [(kw, clsname)]), alGet_append]
      cases hk : alGet k acc with
      | some d₁ => rfl
      | none =>
        by_cases hkk : k = kw
        · subst hkk
          simp [alGet, List.mem_cons]
        · have : ¬ (kw = k) := fun he => hkk he.symm
          simp [alGet, this, List.mem_cons, hkk]

theorem alGet_pkAux (k : String) :
    ∀ (mro : List (String × List String)) (acc : List (String × String)),
      alGet k (protectedKeywordsAux acc mro)
        = match alGet k acc with
          | some c => some c
          | Option.none => firstKeywordDeclarer k mro := by
  intro mro
  induction mro with
  | nil =>
    intro acc
    cases h : alGet k acc <;> simp [protectedKeywordsAux, firstKeywordDeclarer, h]
  | cons hd rest ih =>
    intro acc
    obtain ⟨c₁, kws⟩ := hd
    simp only [protectedKeywordsAux]
    rw [ih (addKeywords c₁ acc kws), alGet_addKeywords]
    cases hk : alGet k acc with
    | some d => rfl
    | none =>
      by_cases hm : k ∈ kws
      · simp [hm, firstKeywordDeclarer]
      · simp [hm, firstKeywordDeclarer]

theorem checkNames_err (mro : List (String × List String)) (name : String)
    (d : Descr) :
    ∀ l : List (String × ClassAttr), alGet name l = some (.descr d) →
      (startsWithUnderscore name = true
        ∨ (alGet name (protectedKeywords mro)).isSome = true) →
      isError (checkNames mro l) = true := by
  intro l
  induction l with
  | nil => intro h _; simp [alGet] at h
  | cons hd rest ih =>
    obtain ⟨n₁, a₁⟩ := hd
    intro h hviol
    by_cases he : n₁ = name
    · subst he
      simp only [alGet, if_pos rfl] at h
      rw [(Option.some.inj h : a₁ = .descr d)]
      cases hsw : startsWithUnderscore n₁ with
      | true => simp [checkNames, ClassAttr.isDescr, hsw, isError]
      | false =>
        rcases hviol with hv | hv
        · rw [hsw] at hv; cases hv
        · obtain ⟨c, hc⟩ := Option.isSome_iff_exists.mp hv
          simp [checkNames, ClassAttr.isDescr, hsw, hc, isError]
    · rw [alGet, if_neg he] at h
      cases a₁ with
      | plain v =>
        simpa [checkNames, ClassAttr.isDescr] using ih h hviol
      | descr d₁ =>
        cases hsw : startsWithUnderscore n₁ with
        | true => simp [checkNames, ClassAttr.isDescr, hsw, isError]
        | false =>
          cases hpk : alGet n₁ (protectedKeywords mro) with
          | some c => simp [checkNames, ClassAttr.isDescr, hsw, hpk, isError]
          | none =>
            simpa [checkNames, ClassAttr.isDescr, hsw, hpk] using ih h hviol

theorem paramValidateArgs_shape (q : String) (deps : List String)
    (cb nc : Bool) :
    paramValidateArgs q deps cb nc = .ok ()
    ∨ ∃ m, paramValidateArgs q deps cb nc = .error (.invalidParamDefinition m) := by
  unfold paramValidateArgs
  split
  · exact Or.inr ⟨_, rfl⟩
  · split
    · exact Or.inr ⟨_, rfl⟩
    · exact Or.inl rfl

theorem setNameAll_no_pk (clsname : String) :
    ∀ (l : List (String × ClassAttr)) (k c : String),
      setNameAll clsname l ≠ .error (.protectedKeywordError k c) := by
  intro l
  induction l with
  | nil => intro k c h; cases h
  | cons hd rest ih =>
    obtain ⟨n₁, a₁⟩ := hd
    intro k c
    cases a₁ with
    | plain v => simpa [setNameAll] using ih k c
    | descr d₁ =>
      cases d₁ with
      | node dflt deps cb nc => simpa [setNameAll] using ih k c
      | param dflt deps cb nc =>
        rcases paramValidateArgs_shape (clsname ++ "." ++ n₁) deps cb nc with
          h | ⟨m, h⟩
        · simpa [setNameAll, h] using ih k c
        · simp [setNameAll, h]

theorem checkNames_pk_lookup (mro : List (String × List String)) :
    ∀ (l : List (String × ClassAttr)) (k c : String),
      checkNames mro l = .error (.protectedKeywordError k c) →
      alGet k (protectedKeywords mro) = some c := by
  intro l
  induction l with
  | nil => intro k c h; cases h
  | cons hd rest ih =>
    obtain ⟨n₁, a₁⟩ := hd
    intro k c h
    cases a₁ with
    | plain v =>
      rw [show checkNames mro ((n₁, ClassAttr.plain v) :: rest)
            = checkNames mro rest from rfl] at h
      exact ih k c h
    | descr d₁ =>
      cases hsw : startsWithUnderscore n₁ with
      | true => simp [checkNames, ClassAttr.isDescr, hsw] at h
      | false =>
        cases hpk : alGet n₁ (protectedKeywords mro) with
        | some c₁ =>
          simp only [checkNames, ClassAttr.isDescr, hsw, hpk, if_true,
            Bool.false_eq_true, if_false] at h
          obtain ⟨hk, hc⟩ := PyErr.protectedKeywordError.inj
            (Except.error.inj h)
          rw [← hk, hpk, hc]
        | none =>
          simp only [checkNames, ClassAttr.isDescr, hsw, hpk, if_true,
            Bool.false_eq_true, if_false] at h
          exact ih k c h

/-- C7: a class declaring a `Node` or `Param` whose processed name starts with
the reserved underscore marker or equals a protected keyword of the type or an
ancestor never comes into existence — `MetaComposable.__new__` raises — and
the protected-keyword error carries exactly the first class in mro order that
declared the keyword. -/
theorem meta_name_checks_c7 :
    (∀ (clsname : String) (attrs : List (String × ClassAttr))
        (anns : List (String × Bool)) (mro : List (String × List String))
        (name : String) (d : Descr),
      alGet name (wrapAttrs attrs anns) = some (.descr d) →
      (startsWithUnderscore name = true
        ∨ (alGet name (protectedKeywords mro)).isSome = true) →
      isError (metaNew clsname attrs anns mro) = true)
    ∧ (∀ (mro : List (String × List String)) (kw : String),
        alGet kw (protectedKeywords mro) = firstKeywordDeclarer kw mro)
    ∧ (∀ (clsname : String) (attrs : List (String × ClassAttr))
        (anns : List (String × Bool)) (mro : List (String × List String))
        (k c : String),
        metaNew clsname attrs anns mro = .error (.protectedKeywordError k c) →
        firstKeywordDeclarer k mro = some c) := by
  have hpk : ∀ (mro : List (String × List String)) (kw : String),
      alGet kw (protectedKeywords mro) = firstKeywordDeclarer kw mro := by
    intro mro kw
    rw [protectedKeywords, alGet_pkAux]
    simp [alGet]
  refine ⟨?_, hpk, ?_⟩
  · intro clsname attrs anns mro name d h hviol
    simp only [metaNew]
    cases hs : setNameAll clsname (wrapAttrs attrs anns) with
    | error e => simp [isError]
    | ok u =>
      have hce := checkNames_err mro name d (wrapAttrs attrs anns) h hviol
      cases hc : checkNames mro (wrapAttrs attrs anns) with
      | error e => simp [isError]
      | ok u₁ => rw [hc, isError] at hce; cases hce
  · intro clsname attrs anns mro k c h
    simp only [metaNew] at h
    cases hs : setNameAll clsname (wrapAttrs attrs anns) with
    | error e =>
      rw [hs] at h
      exact absurd (Except.error.inj h ▸ hs) (setNameAll_no_pk clsname _ k c)
    | ok u =>
      rw [hs] at h
      cases hc : checkNames mro (wrapAttrs attrs anns) with
      | error e =>
        rw [hc] at h
        rw [← hpk mro k]
        exact checkNames_pk_lookup mro _ k c ((Except.error.inj h) ▸ hc)
      | ok u₁ => rw [hc] at h; cases h

/-- Witness for C7: the field name `run` collides with the `Composable`
protected keyword; the lookup agrees with the first declarer in mro order. -/
theorem meta_name_checks_c7_witness :
    isError (metaNew "MyFlow"
        [("run", ClassAttr.descr (.param Option.none [] false false))] []
        [("MyFlow", []), ("Composable", composableKeywords)]) = true
    ∧ alGet "run"
        (protectedKeywords [("MyFlow", []), ("Composable", composableKeywords)])
      = firstKeywordDeclarer "run"
          [("MyFlow", []), ("Composable", composableKeywords)] :=
  ⟨meta_name_checks_c7.1 "MyFlow"
      [("run", ClassAttr.descr (.param Option.none [] false false))] []
      [("MyFlow", []), ("Composable", composableKeywords)] "run"
      (.param Option.none [] false false) (by decide) (Or.inr (by decide)),
   meta_name_checks_c7.2.1 [("MyFlow", []), ("Composable", composableKeywords)]
     "run"⟩

theorem paramValidateArgs_err (q : String) (deps : List String) (cb nc : Bool)
    (hne : deps ≠ []) (hbad : cb = false ∨ nc = true) :
    isError (paramValidateArgs q deps cb nc) = true := by
  rcases hbad with h | h
  · subst h
    simp [paramValidateArgs, hne, isError]
  · subst h
    unfold paramValidateArgs
    split
    · rfl
    · rw [if_pos ⟨hne, rfl⟩]; rfl

theorem setNameAll_err (clsname name : String) (dflt : Option PyVal)
    (deps : List String) (cb nc : Bool) (hne : deps ≠ [])
    (hbad : cb = false ∨ nc = true) :
    ∀ l : List (String × ClassAttr),
      alGet name l = some (.descr (.param dflt deps cb nc)) →
      isError (setNameAll clsname l) = true := by
  intro l
  induction l with
  | nil => intro h; simp [alGet] at h
  | cons hd rest ih =>
    obtain ⟨n₁, a₁⟩ := hd
    intro h
    by_cases he : n₁ = name
    · subst he
      simp only [alGet, if_pos rfl] at h
      rw [(Option.some.inj h : a₁ = .descr (.param dflt deps cb nc))]
      have herr := paramValidateArgs_err (clsname ++ "." ++ n₁) deps cb nc hne hbad
      cases hv : paramValidateArgs (clsname ++ "." ++ n₁) deps cb nc with
      | error e => simp [setNameAll, hv, isError]
      | ok u => rw [hv, isError] at herr; cases herr
    · rw [alGet, if_neg he] at h
      cases a₁ with
      | plain v => simpa [setNameAll] using ih h
      | descr d₁ =>
        cases d₁ with
        | node dflt₁ deps₁ cb₁ nc₁ => simpa [setNameAll] using ih h
        | param dflt₁ deps₁ cb₁ nc₁ =>
          cases hv : paramValidateArgs (clsname ++ "." ++ n₁) deps₁ cb₁ nc₁ with
          | error e => simp [setNameAll, hv, isError]
          | ok u => simpa [setNameAll, hv] using ih h

theorem evalClassBody_err (name : String) (dflt : Option PyVal)
    (deps : List String) (cb : Bool) (hne : deps ≠ []) :
    ∀ raw : List (String × RawField),
      (name, RawField.nodeDecl dflt deps cb true) ∈ raw →
      isError (evalClassBody raw) = true := by
  intro raw
  induction raw with
  | nil => intro h; simp at h
  | cons hd rest ih =>
    intro h
    rcases List.mem_cons.mp h with h | h
    · subst h
      have : nodeInit dflt deps cb true = .error (.attributeError "_name") := by
        unfold nodeInit
        rw [if_pos ⟨hne, rfl⟩]
      simp [evalClassBody, this, isError]
    · have hr := ih h
      obtain ⟨n₁, f₁⟩ := hd
      cases hrest : evalClassBody rest with
      | error e =>
        cases f₁ with
        | paramDecl d₂ deps₂ cb₂ nc₂ => simp [evalClassBody, hrest, isError]
        | plainDecl v => simp [evalClassBody, hrest, isError]
        | nodeDecl d₂ deps₂ cb₂ nc₂ =>
          cases hni : nodeInit d₂ deps₂ cb₂ nc₂ with
          | error e₁ => simp [evalClassBody, hni, isError]
          | ok u => simp [evalClassBody, hni, hrest, isError]
      | ok attrs => rw [hrest, isError] at hr; cases hr

/-- Counterexample to C8: a `Node` declared with a dependency list and no
computation function passes type construction — `Node.__init__` has no
depends-on-without-callback check, so the class is created. -/
theorem node_depends_no_callback_ok_c8 :
    classDefine "F" [("n", .nodeDecl Option.none ["x"] false false)] []
        [("F", []), ("Composable", composableKeywords)]
      = .ok [("n", .descr (.node Option.none ["x"] false false))] := rfl

/-- C8 (amended): a `Param` with a dependency list but no callback, or with a
dependency list and `no_cache`, aborts type construction; a `Node` with a
dependency list and `no_cache` also aborts type construction (through the
`AttributeError` its unset `_name` raises while formatting the intended
`ValueError`); but a `Node` with a dependency list and no callback constructs
fine, and the missing callback only surfaces as a `ValueError` at the first
read that detects a token mismatch. -/
theorem definition_time_checks_c8 :
    (∀ (clsname : String) (attrs : List (String × ClassAttr))
        (anns : List (String × Bool)) (mro : List (String × List String))
        (name : String) (dflt : Option PyVal) (deps : List String) (cb nc : Bool),
      alGet name (wrapAttrs attrs anns) = some (.descr (.param dflt deps cb nc)) →
      deps ≠ [] → (cb = false ∨ nc = true) →
      isError (metaNew clsname attrs anns mro) = true)
    ∧ (∀ (clsname : String) (raw : List (String × RawField))
        (anns : List (String × Bool)) (mro : List (String × List String))
        (name : String) (dflt : Option PyVal) (deps : List String) (cb : Bool),
        (name, RawField.nodeDecl dflt deps cb true) ∈ raw → deps ≠ [] →
        isError (classDefine clsname raw anns mro) = true)
    ∧ (classDefine "F" [("n", .nodeDecl Option.none ["x"] false true)] []
          [("F", []), ("Composable", composableKeywords)]
        = .error (.attributeError "_name"))
    ∧ (∀ (name : String) (depId : String → Int) (t : String) (rest : List String)
        (ns : List (String × PyVal)), depId t ≠ -1 →
        nodeCalculateFromDependsOn name Option.none depId (t :: rest) ⟨ns, []⟩
          = .error (.valueError (nodeDependsCbMsg name (t :: rest)))) := by
  refine ⟨?_, ?_, rfl, ?_⟩
  · intro clsname attrs anns mro name dflt deps cb nc h hne hbad
    have hs := setNameAll_err clsname name dflt deps cb nc hne hbad
      (wrapAttrs attrs anns) h
    simp only [metaNew]
    cases hv : setNameAll clsname (wrapAttrs attrs anns) with
    | error e => simp [isError]
    | ok u => rw [hv, isError] at hs; cases hs
  · intro clsname raw anns mro name dflt deps cb hmem hne
    have hb := evalClassBody_err name dflt deps cb hne raw hmem
    simp only [classDefine]
    cases hv : evalClassBody raw with
    | error e => simp [isError]
    | ok attrs => rw [hv, isError] at hb; cases hb
  · intro name depId t rest ns hid
    have hne : (t :: rest : List String) ≠ [] := by simp
    unfold nodeCalculateFromDependsOn
    rw [if_neg hne]
    unfold nodeScanDepends
    simp only [alGet, Option.getD_none]
    rw [if_pos (show (-1 : Int) ≠ depId t from fun he => hid he.symm)]

/-- Witness for C8 (amended) at concrete class definitions and a concrete
dependency read. -/
theorem definition_time_checks_c8_witness :
    isError (metaNew "F"
        [("p", ClassAttr.descr (.param Option.none ["x"] false false))] []
        [("F", []), ("Composable", composableKeywords)]) = true
    ∧ isError (classDefine "G"
        [("n", RawField.nodeDecl Option.none ["x"] true true)] []
        [("G", []), ("Composable", composableKeywords)]) = true
    ∧ nodeCalculateFromDependsOn "n" Option.none depIdEx ["a"] ⟨[], []⟩
        = .error (.valueError (nodeDependsCbMsg "n" ["a"])) :=
  ⟨definition_time_checks_c8.1 "F"
      [("p", ClassAttr.descr (.param Option.none ["x"] false false))] []
      [("F", []), ("Composable", composableKeywords)] "p" Option.none ["x"]
      false false (by decide) (by decide) (Or.inl rfl),
   definition_time_checks_c8.2.1 "G"
      [("n", RawField.nodeDecl Option.none ["x"] true true)] []
      [("G", []), ("Composable", composableKeywords)] "n" Option.none ["x"]
      true (by decide) (by decide),
   definition_time_checks_c8.2.2.2 "n" depIdEx "a" [] [] (by decide)⟩

theorem okInputLoop_missing {α : Type} (compat : α → α → Bool)
    (ti : List (String × α)) (n : String) (a : α) :
    ∀ (ref : List (String × α)) (acc : Bool),
      (n, a) ∈ ref → alGet n ti = Option.none →
      okInputLoop compat ti acc ref = false := by
  intro ref
  induction ref with
  | nil => intro acc h _; simp at h
  | cons hd rest ih =>
    obtain ⟨n₁, a₁⟩ := hd
    intro acc hmem hti
    rcases List.mem_cons.mp hmem with h | h
    · obtain ⟨hn, _⟩ := Prod.mk.inj h
      subst hn
      simp only [okInputLoop, hti]
    · cases hg : alGet n₁ ti with
      | none => simp only [okInputLoop, hg]
      | some ta =>
        cases hc : compat ta a₁ with
        | true => simp only [okInputLoop, hg, hc, if_true]; exact ih _ h hti
        | false => simp only [okInputLoop, hg, hc, Bool.false_eq_true, if_false]

/-- C9: in `is_compatible` on a node path, an absent (`empty`) declared input
signature is always judged compatible on the input side; a declared input name
missing from the candidate signature makes the overall result `False`; and the
overall result is `True` exactly when both the input side and the output side
are compatible. -/
theorem is_compatible_node_c9 :
    (∀ (α : Type) (compat : α → α → Bool) (ro : Option α)
        (ti : List (String × α)) (tout : α),
      okInputSide compat Option.none ti = true
      ∧ isCompatibleNode compat Option.none ro ti tout
          = okOutputSide compat ro tout)
    ∧ (∀ (α : Type) (compat : α → α → Bool) (ref : List (String × α))
        (ro : Option α) (ti : List (String × α)) (tout : α) (n : String) (a : α),
        (n, a) ∈ ref → alGet n ti = Option.none →
        isCompatibleNode compat (some ref) ro ti tout = false)
    ∧ (∀ (α : Type) (compat : α → α → Bool)
        (ri : Option (List (String × α))) (ro : Option α)
        (ti : List (String × α)) (tout : α),
        isCompatibleNode compat ri ro ti tout = true
          ↔ (okInputSide compat ri ti = true
             ∧ okOutputSide compat ro tout = true)) := by
  refine ⟨?_, ?_, ?_⟩
  · intro α compat ro ti tout
    exact ⟨rfl, by cases ro <;> simp [isCompatibleNode, okOutputSide]⟩
  · intro α compat ref ro ti tout n a hmem hti
    simp only [isCompatibleNode, okInputLoop_missing compat ti n a ref false hmem hti,
      Bool.false_and]
  · intro α compat ri ro ti tout
    cases ri <;> cases ro <;>
      simp [isCompatibleNode, okInputSide, okOutputSide, Bool.and_eq_true]

/-- Witness for C9 at a concrete signature: reference input `{a}` against an
empty candidate signature is incompatible; an absent reference input is
compatible; the conjunction decomposition at a concrete instance. -/
theorem is_compatible_node_c9_witness :
    (okInputSide (fun (_ _ : Nat) => true) Option.none [("b", 1)] = true
     ∧ isCompatibleNode (fun (_ _ : Nat) => true) Option.none Option.none
         [("b", 1)] 0
       = okOutputSide (fun (_ _ : Nat) => true) Option.none 0)
    ∧ isCompatibleNode (fun (_ _ : Nat) => true) (some [("a", 0)]) Option.none
        [] 0 = false
    ∧ (isCompatibleNode (fun (_ _ : Nat) => true) (some [("a", 0)]) Option.none
        [] 0 = true
       ↔ (okInputSide (fun (_ _ : Nat) => true) (some [("a", 0)]) [] = true
          ∧ okOutputSide (fun (_ _ : Nat) => true) Option.none 0 = true)) :=
  ⟨is_compatible_node_c9.1 Nat (fun _ _ => true) Option.none [("b", 1)] 0,
   is_compatible_node_c9.2.1 Nat (fun _ _ => true) [("a", 0)] Option.none [] 0
     "a" 0 (by decide) rfl,
   is_compatible_node_c9.2.2 Nat (fun _ _ => true) (some [("a", 0)]) Option.none
     [] 0⟩

/-- C10: `set` with `strict=False` — the default, used by `__init__` for
constructor overrides — silently skips any field whose assignment raises,
leaving that field unassigned and continuing with the rest (so it never
fails), while `strict=True` re-raises the first assignment error. -/
theorem set_nonstrict_c10 :
    (∀ (σ : Type) (assign : String → PyVal → σ → Except PyErr σ)
        (kwargs : List (String × PyVal)) (st : σ),
      composableSet false assign kwargs st
        = .ok (kwargs.foldl
            (fun s kv =>
              match assign kv.1 kv.2 s with
              | .ok s₁ => s₁
              | .error _ => s) st))
    ∧ (∀ (σ : Type) (assign : String → PyVal → σ → Except PyErr σ)
        (kwargs₁ kwargs₂ : List (String × PyVal)) (n : String) (v : PyVal)
        (st st₁ : σ) (e : PyErr),
        composableSet true assign kwargs₁ st = .ok st₁ →
        assign n v st₁ = .error e →
        composableSet true assign (kwargs₁ ++ (n, v) :: kwargs₂) st = .error e)
    ∧ (∀ (σ : Type) (assign : String → PyVal → σ → Except PyErr σ)
        (params : List (String × PyVal)) (st : σ),
        isError (composableInitSet assign params st) = false) := by
  have h1 : ∀ (σ : Type) (assign : String → PyVal → σ → Except PyErr σ)
      (kwargs : List (String × PyVal)) (st : σ),
      composableSet false assign kwargs st
        = .ok (kwargs.foldl
            (fun s kv =>
              match assign kv.1 kv.2 s with
              | .ok s₁ => s₁
              | .error _ => s) st) := by
    intro σ assign kwargs
    induction kwargs with
    | nil => intro st; rfl
    | cons hd rest ih =>
      intro st
      obtain ⟨nm, v⟩ := hd
      cases h : assign nm v st with
      | ok s₁ => simp [composableSet, h, ih]
      | error e => simp [composableSet, h, ih]
  refine ⟨h1, ?_, ?_⟩
  · intro σ assign kwargs₁
    induction kwargs₁ with
    | nil =>
      intro kwargs₂ n v st st₁ e hok herr
      have : st = st₁ := Except.ok.inj hok
      subst this
      simp [composableSet, herr]
    | cons hd rest ih =>
      intro kwargs₂ n v st st₁ e hok herr
      obtain ⟨m, w⟩ := hd
      simp only [composableSet] at hok
      cases ha : assign m w st with
      | error e₁ => rw [ha] at hok; simp at hok
      | ok s₁ =>
        rw [ha] at hok
        simp only [List.cons_append, composableSet, ha]
        exact ih kwargs₂ n v s₁ st₁ e hok herr
  · intro σ assign params st
    rw [composableInitSet, h1]
    rfl

/-- Witness for C10: with a field assignment that rejects the key `bad`,
strict mode re-raises at `bad` while the non-strict constructor path never
fails. -/
theorem set_nonstrict_c10_witness :
    composableSet true assignEx
        ([("a", .int 1)] ++ ("bad", .int 2) :: [("c", .int 3)]) []
      = .error (.valueError "no")
    ∧ isError (composableInitSet assignEx [("bad", .int 2)] []) = false :=
  ⟨set_nonstrict_c10.2.1 (List (String × PyVal)) assignEx [("a", .int 1)]
      [("c", .int 3)] "bad" (.int 2) [] [("a", .int 1)] (.valueError "no")
      (by decide) (by decide),
   set_nonstrict_c10.2.2 (List (String × PyVal)) assignEx [("bad", .int 2)] []⟩

end TheFlow
